import Mathlib

/-!
Shallow embedding of the De Anza course planner core (`models.py` and
`scraper_module.py`): time parsing, conflict detection, personal-name
normalization and matching, table-row extraction, listing de-duplication,
fetch retry and rating resolution.  Python strings are modelled as
`List Char`; Python's ASCII case and whitespace operations are modelled by
the corresponding `Char` predicates; regular expressions are translated to
explicit character-level scanners with the same leftmost/greedy semantics.
-/

namespace DeAnza

/-- Python's substring containment `needle in hay`: the needle is a prefix
of some suffix of the haystack (the empty needle is contained anywhere). -/
def occursIn (needle : List Char) : List Char → Bool
  | [] => needle.isEmpty
  | c :: rest => needle.isPrefixOf (c :: rest) || occursIn needle rest

/-- Python whitespace class (the characters matched by `\s` on ASCII input,
and the characters stripped by `str.strip()` / split by `str.split()`). -/
def isPySpace (c : Char) : Bool :=
  c = ' ' || c = '\t' || c = '\n' || c = '\r' || c = '\x0b' || c = '\x0c'

/-- Python `str.strip()`: drop leading and trailing whitespace. -/
def pyStrip (l : List Char) : List Char :=
  ((l.dropWhile isPySpace).reverse.dropWhile isPySpace).reverse

/-- Python `str.split()` with no separator: maximal runs of non-whitespace,
empties discarded.  Implemented as a right fold building (words, current run). -/
def pySplitStep (c : Char) (st : List (List Char) × List Char) : List (List Char) × List Char :=
  if isPySpace c then
    (if st.2 ≠ [] then st.2 :: st.1 else st.1, [])
  else
    (st.1, c :: st.2)

/-- Python `str.split()` (whitespace splitting, no empty parts). -/
def pySplit (l : List Char) : List (List Char) :=
  let st := l.foldr pySplitStep ([], [])
  if st.2 ≠ [] then st.2 :: st.1 else st.1

/-- The keys of `DAY_MAP` in `models.py`: canonical weekday letters. -/
def isDayLetter (c : Char) : Bool :=
  c = 'M' || c = 'T' || c = 'W' || c = 'R' || c = 'F' || c = 'S' || c = 'U'

/-- `DAY_MAP` from `models.py`: weekday letter to full day name. -/
def dayName (c : Char) : List Char :=
  if c = 'M' then "Monday".toList
  else if c = 'T' then "Tuesday".toList
  else if c = 'W' then "Wednesday".toList
  else if c = 'R' then "Thursday".toList
  else if c = 'F' then "Friday".toList
  else if c = 'S' then "Saturday".toList
  else if c = 'U' then "Sunday".toList
  else []

/-- One step of `TIME_PATTERN`: match `\d{1,2}:\d{2}` at the head of the
input (greedy two-digit hour first, falling back to one digit exactly as the
regex backtracks), returning the matched characters and the rest. -/
def matchHHMM (l : List Char) : Option (List Char × List Char) :=
  match l with
  | a :: ':' :: c :: d :: rest =>
    if a.isDigit && c.isDigit && d.isDigit then some ([a, ':', c, d], rest) else none
  | a :: b :: ':' :: c :: d :: rest =>
    if a.isDigit && b.isDigit && c.isDigit && d.isDigit then
      some ([a, b, ':', c, d], rest)
    else none
  | _ => none

/-- Match `\s*[AP]M` (case-insensitive, as `TIME_PATTERN` is compiled with
`re.I`) at the head of the input, returning matched characters and rest. -/
def matchAmPm (l : List Char) : Option (List Char × List Char) :=
  let ws := l.takeWhile isPySpace
  match l.dropWhile isPySpace with
  | a :: m :: rest =>
    if (a = 'A' || a = 'P' || a = 'a' || a = 'p') && (m = 'M' || m = 'm') then
      some (ws ++ [a, m], rest)
    else none
  | _ => none

/-- Match `\s*-\s*` at the head of the input, returning the rest. -/
def matchDash (l : List Char) : Option (List Char) :=
  match l.dropWhile isPySpace with
  | '-' :: rest => some (rest.dropWhile isPySpace)
  | _ => none

/-- Try `TIME_PATTERN` = `(\d{1,2}:\d{2}\s*[AP]M)\s*-\s*(\d{1,2}:\d{2}\s*[AP]M)`
anchored at the current position; on success return the two groups. -/
def tryTimeAt (l : List Char) : Option (List Char × List Char) := do
  let (g1a, r1) ← matchHHMM l
  let (g1b, r2) ← matchAmPm r1
  let r3 ← matchDash r2
  let (g2a, r4) ← matchHHMM r3
  let (g2b, _) ← matchAmPm r4
  some (g1a ++ g1b, g2a ++ g2b)

/-- `re.search` of `TIME_PATTERN`: leftmost match of the time-range pattern,
returning the two captured groups. -/
def searchTimeGroups : List Char → Option (List Char × List Char)
  | [] => none
  | c :: rest =>
    match tryTimeAt (c :: rest) with
    | some g => some g
    | none => searchTimeGroups rest

/-- `strptime` directive `%I`: hour 1..12, regex `1[0-2]|0[1-9]|[1-9]`. -/
def parseHourI : List Char → Option (Nat × List Char)
  | '1' :: c :: rest =>
    if '0' ≤ c && c ≤ '2' then some (10 + (c.toNat - 48), rest)
    else some (1, c :: rest)
  | '0' :: c :: rest =>
    if '1' ≤ c && c ≤ '9' then some (c.toNat - 48, rest) else none
  | c :: rest =>
    if '1' ≤ c && c ≤ '9' then some (c.toNat - 48, rest) else none
  | [] => none

/-- `strptime` directive `%M`: minute, regex `[0-5]\d|\d`. -/
def parseMinM : List Char → Option (Nat × List Char)
  | a :: b :: rest =>
    if '0' ≤ a && a ≤ '5' && b.isDigit then
      some ((a.toNat - 48) * 10 + (b.toNat - 48), rest)
    else if a.isDigit then some (a.toNat - 48, b :: rest)
    else none
  | [a] => if a.isDigit then some (a.toNat - 48, []) else none
  | [] => none

/-- `strptime` directive `%p`: `AM` or `PM`, case-insensitive.  Returns
`true` for PM. -/
def parseAmPmTok : List Char → Option (Bool × List Char)
  | a :: b :: rest =>
    if (a = 'A' || a = 'a') && (b = 'M' || b = 'm') then some (false, rest)
    else if (a = 'P' || a = 'p') && (b = 'M' || b = 'm') then some (true, rest)
    else none
  | _ => none

/-- `datetime.strptime(s, "%I:%M %p")`: `%I`, literal `:`, `%M`, whitespace
run (CPython turns the space in the format into `\s+`), `%p`, and the whole
input must be consumed.  Returns (hour 1..12, minute, is-PM). -/
def strptimeIMp (l : List Char) : Option (Nat × Nat × Bool) := do
  let (h, r1) ← parseHourI l
  let r2 ← match r1 with
    | ':' :: r => some r
    | _ => none
  let (m, r3) ← parseMinM r2
  let r4 ← match r3 with
    | c :: r => if isPySpace c then some (r.dropWhile isPySpace) else none
    | [] => none
  let (pm, r5) ← parseAmPmTok r4
  if r5 = [] then some (h, m, pm) else none

/-- 12-hour to minutes-since-midnight, with `strptime`'s AM/PM rules
(12 AM is 0 hours, 12 PM is 12 hours). -/
def to24Minutes (h m : Nat) (pm : Bool) : Nat :=
  let h24 := if pm then (if h ≠ 12 then h + 12 else 12) else (if h = 12 then 0 else h)
  h24 * 60 + m

/-- The structured result of `parse_class_time` in `models.py`. -/
structure TimeData where
  days : List Char
  day_names : List (List Char)
  start_time : List Char
  end_time : List Char
  start_minutes : Nat
  end_minutes : Nat
  duration_minutes : Int
deriving DecidableEq

/-- `parse_class_time` from `models.py` (lines 25-77): reject empty or
literal "TBA" input; take the leading run of day letters and whitespace as
the day prefix (regex `^([MTWRFSU\s]+)`), keep the day letters; find the
first 12-hour time range via `TIME_PATTERN`; convert both endpoints with
`strptime("%I:%M %p")`, any failure yielding `none`. -/
def parse_class_time (s : List Char) : Option TimeData :=
  if s = [] || s = "TBA".toList then none
  else
    let dayRun := s.takeWhile (fun c => isDayLetter c || isPySpace c)
    if dayRun = [] then none
    else
      let days := (pyStrip dayRun).filter isDayLetter
      if days = [] then none
      else
        match searchTimeGroups s with
        | none => none
        | some (g1, g2) =>
          let startStr := pyStrip g1
          let endStr := pyStrip g2
          match strptimeIMp startStr, strptimeIMp endStr with
          | some (h1, m1, p1), some (h2, m2, p2) =>
            let sm := to24Minutes h1 m1 p1
            let em := to24Minutes h2 m2 p2
            some { days := days, day_names := days.map dayName,
                   start_time := startStr, end_time := endStr,
                   start_minutes := sm, end_minutes := em,
                   duration_minutes := (em : Int) - (sm : Int) }
          | _, _ => none

/-! ## Name normalization (`normalize_name`, scraper_module.py lines 25-109) -/

/-- The apostrophe character, used in the special surname prefixes. -/
def apos : Char := Char.ofNat 39

/-- One-pass state machine for `re.sub(r'\([^)]*\)', '', name)`: outside a
parenthesis, characters are kept; after an opening parenthesis characters are
buffered until a closing parenthesis discards the buffer; a buffer left open
at the end of input is flushed verbatim (the regex needs a closing
parenthesis to match). -/
def removeParensGo : List Char → Option (List Char) → List Char
  | [], none => []
  | [], some buf => buf.reverse
  | c :: rest, none =>
    if c = '(' then removeParensGo rest (some [c]) else c :: removeParensGo rest none
  | c :: rest, some buf =>
    if c = ')' then removeParensGo rest none else removeParensGo rest (some (c :: buf))

/-- `re.sub(r'\([^)]*\)', '', name)`: strip parenthetical asides. -/
def removeParens (l : List Char) : List Char := removeParensGo l none

/-- `name_clean.replace(',', ' ')`. -/
def replaceCommas (l : List Char) : List Char :=
  l.map (fun c => if c = ',' then ' ' else c)

/-- `re.sub(r'\.([A-Z])', r' \1', name_clean)`: a period directly followed by
a capital letter becomes a space plus that letter; scanning resumes after
the consumed capital, as the regex consumes both characters. -/
def subDotCap : List Char → List Char
  | '.' :: c :: rest =>
    if c.isUpper then ' ' :: c :: subDotCap rest else '.' :: subDotCap (c :: rest)
  | c :: rest => c :: subDotCap rest
  | [] => []

/-- One step of `re.findall(r'[A-Z][^A-Z]*', s)` as a right fold: an
uppercase letter starts a new group absorbing the pending run of
non-uppercase characters; non-uppercase characters before the first group
are discarded, as the regex skips them. -/
def capSplitStep (c : Char) (st : List (List Char) × List Char) :
    List (List Char) × List Char :=
  if c.isUpper then ((c :: st.2) :: st.1, []) else (st.1, c :: st.2)

/-- `re.findall(r'[A-Z][^A-Z]*', s)`: split on capital-letter boundaries. -/
def capSplit (l : List Char) : List (List Char) :=
  (l.foldr capSplitStep ([], [])).1

/-- The `special_prefixes` list of `normalize_name`. -/
def specialPrefixList : List (List Char) :=
  ["Mc".toList, "Mac".toList, ['O', apos], "De".toList, "Van".toList,
   "Von".toList, "La".toList, "Le".toList, "St".toList, "Saint".toList]

/-- The prefix-merging loop of `normalize_name`: a token equal to a special
surname prefix that is not the last token is concatenated with its
successor. -/
def mergeSpecial : List (List Char) → List (List Char)
  | [] => []
  | [x] => [x]
  | x :: y :: rest =>
    if specialPrefixList.contains x then (x ++ y) :: mergeSpecial rest
    else x :: mergeSpecial (y :: rest)

/-- The single-token branch of `normalize_name` (lines 44-93): split the
lone token on capital-letter boundaries and merge special prefixes; if that
yields a single group, try the `^([a-z]+)([A-Z].*)` lowercase-to-uppercase
boundary split (where `.` does not cross a newline) and merge prefixes on
the remainder. -/
def splitSingleToken (t : List Char) : List (List Char) :=
  let sp := capSplit t
  if 2 ≤ sp.length then mergeSpecial sp
  else if sp.length = 1 then
    let lo := t.takeWhile Char.isLower
    let rest := t.dropWhile Char.isLower
    match rest with
    | c :: _ =>
      if lo ≠ [] && c.isUpper then
        let g2 := rest.takeWhile (fun d => d ≠ '\n')
        let rp := capSplit g2
        if 2 ≤ rp.length then lo :: mergeSpecial rp else [lo, g2]
      else [t]
    | [] => [t]
  else [t]

/-- Token cleanup in the post-filter: `p.lower().strip().replace('.', '')`. -/
def cleanToken (p : List Char) : List Char :=
  (pyStrip (p.map Char.toLower)).filter (fun c => c ≠ '.')

/-- The post-filter of `normalize_name` (lines 95-109): tokens whose cleaned
form has more than one character are kept; a cleaned single-letter token is
skipped both when strictly between the first and last positions and when at
the first or last position ("might be valid, but skip for now"); empty
cleaned tokens fall through all branches and are dropped. -/
def filterParts (parts : List (List Char)) : List (List Char) :=
  parts.enum.filterMap (fun ip =>
    let pc := cleanToken ip.2
    if 1 < pc.length then some pc
    else if pc.length = 1 && 0 < ip.1 && ip.1 < parts.length - 1 then none
    else if pc.length = 1 then none
    else none)

/-- `normalize_name` from `scraper_module.py` (lines 25-109). -/
def normalize_name (name : List Char) : List (List Char) :=
  let c1 := removeParens name
  let c2 := replaceCommas c1
  let c3 := subDotCap c2
  let parts := pySplit c3
  let parts2 :=
    match parts with
    | [t] => splitSingleToken t
    | _ => parts
  filterParts parts2

/-- `match_professor_name_strict` from `scraper_module.py` (lines 112-161):
both normalized token sequences need at least two tokens; then first and
last tokens must agree either directly or in reversed ("Last, First")
pairing. -/
def match_professor_name_strict (searchName cardName : List Char) : Bool :=
  let sp := normalize_name searchName
  let cp := normalize_name cardName
  if sp.length < 2 then false
  else if cp.length < 2 then false
  else
    let sf := sp.headD []
    let sl := sp.getLastD []
    let cf := cp.headD []
    let cl := cp.getLastD []
    if sf == cf && sl == cl then true
    else if 2 ≤ cp.length then
      if sf == cl && sl == cf then true else false
    else false

/-! ## Conflict detection (`detect_conflicts`, models.py lines 80-122) -/

/-- A selected course as consumed by `detect_conflicts`: the dictionary keys
it reads (`crn`, `course`, `professor`, `time_data`). -/
structure Course where
  crn : List Char
  course : List Char
  professor : List Char
  time_data : Option TimeData
deriving DecidableEq

/-- The course reference inside a conflict record (`crn`, `course`,
`professor`). -/
structure CourseRef where
  crn : List Char
  course : List Char
  professor : List Char
deriving DecidableEq

/-- A conflict record as built by `detect_conflicts`. -/
structure Conflict where
  course1 : CourseRef
  course2 : CourseRef
  conflicting_days : List Char
  time1 : List Char
  time2 : List Char
deriving DecidableEq

/-- `set(time1['days']) & set(time2['days'])`, listed deterministically: the
days of the first interval that also occur in the second, with duplicates
removed.  As a set of letters this is exactly the Python intersection;
Python's `list(...)` enumeration order of a `set` is unspecified, so a fixed
canonical enumeration embeds it. -/
def sharedDays (t1 t2 : TimeData) : List Char :=
  (t1.days.filter (fun d => decide (d ∈ t2.days))).dedup

/-- The formatted range `f"{start_time} - {end_time}"`. -/
def timeRangeStr (t : TimeData) : List Char :=
  t.start_time ++ " - ".toList ++ t.end_time

/-- The conflict record appended for an overlapping pair. -/
def conflictRecOf (c1 : Course) (t1 : TimeData) (c2 : Course) (t2 : TimeData) : Conflict :=
  { course1 := ⟨c1.crn, c1.course, c1.professor⟩,
    course2 := ⟨c2.crn, c2.course, c2.professor⟩,
    conflicting_days := sharedDays t1 t2,
    time1 := timeRangeStr t1, time2 := timeRangeStr t2 }

/-- Inner loop of `detect_conflicts`: scan the courses after position `i`,
skipping ones without `time_data`, and emit a record when days are shared
and the half-open ranges overlap strictly. -/
def innerScan (c1 : Course) (t1 : TimeData) : List Course → List Conflict
  | [] => []
  | c2 :: rest =>
    match c2.time_data with
    | none => innerScan c1 t1 rest
    | some t2 =>
      if sharedDays t1 t2 ≠ [] then
        if t1.start_minutes < t2.end_minutes ∧ t1.end_minutes > t2.start_minutes then
          conflictRecOf c1 t1 c2 t2 :: innerScan c1 t1 rest
        else innerScan c1 t1 rest
      else innerScan c1 t1 rest

/-- `detect_conflicts` from `models.py` (lines 80-122): for each course with
parsed time data, compare against every later course. -/
def detect_conflicts : List Course → List Conflict
  | [] => []
  | c1 :: rest =>
    (match c1.time_data with
     | none => []
     | some t1 => innerScan c1 t1 rest) ++ detect_conflicts rest

/-- The Boolean conflict condition between two intervals, in loop order
(first index `i`, second index `j`): shared days non-empty, and
`start_i < end_j` and `end_i > start_j`. -/
def conflictCond (t1 t2 : TimeData) : Prop :=
  sharedDays t1 t2 ≠ [] ∧ t1.start_minutes < t2.end_minutes ∧ t1.end_minutes > t2.start_minutes

instance (t1 t2 : TimeData) : Decidable (conflictCond t1 t2) := by
  unfold conflictCond; infer_instance

/-- Instrumented inner loop: the `(i, j)` index pairs for which the inner
loop emits a record, with `j` counting from the given start. -/
def innerPairs (t1 : TimeData) (i : Nat) : Nat → List Course → List (Nat × Nat)
  | _, [] => []
  | j, c2 :: rest =>
    match c2.time_data with
    | none => innerPairs t1 i (j + 1) rest
    | some t2 =>
      if conflictCond t1 t2 then (i, j) :: innerPairs t1 i (j + 1) rest
      else innerPairs t1 i (j + 1) rest

/-- Instrumented outer loop: all emitted index pairs, with `i` counting from
the given start. -/
def conflictPairsAux : Nat → List Course → List (Nat × Nat)
  | _, [] => []
  | i, c1 :: rest =>
    (match c1.time_data with
     | none => []
     | some t1 => innerPairs t1 i (i + 1) rest) ++ conflictPairsAux (i + 1) rest

/-- The index pairs `(i, j)` of the conflicts emitted by
`detect_conflicts`, in emission order. -/
def conflictPairs (cs : List Course) : List (Nat × Nat) := conflictPairsAux 0 cs

/-- Junk course used only as the default of positional lookups. -/
def dCourse : Course := ⟨[], [], [], none⟩

/-- Junk conflict used only as the default of positional lookups. -/
def dConflict : Conflict := ⟨⟨[], [], []⟩, ⟨[], [], []⟩, [], [], []⟩

/-- The conflict record determined by an index pair. -/
def conflictOfPair (cs : List Course) (p : Nat × Nat) : Conflict :=
  match (cs.getD p.1 dCourse).time_data, (cs.getD p.2 dCourse).time_data with
  | some t1, some t2 => conflictRecOf (cs.getD p.1 dCourse) t1 (cs.getD p.2 dCourse) t2
  | _, _ => dConflict

/-- Strict lexicographic order on index pairs: `i` ascending, then `j`
ascending. -/
def pairLexLt (p q : Nat × Nat) : Prop :=
  p.1 < q.1 ∨ (p.1 = q.1 ∧ p.2 < q.2)

/-! ## Listing de-duplication (`parse_course_info`, scraper_module.py lines 334-343) -/

/-- An extracted course record as produced by the row/element extractors. -/
structure CourseRec where
  course : List Char
  crn : List Char
  professor : List Char
  class_time : List Char
  format : List Char
deriving DecidableEq

/-- The `"N/A"` sentinel CRN. -/
def naStr : List Char := "N/A".toList

/-- The de-duplication loop of `parse_course_info`: a record is kept when
its CRN is not in the seen-set or equals `"N/A"`; kept records add their CRN
to the seen-set. -/
def dedupGo (seen : List (List Char)) : List CourseRec → List CourseRec
  | [] => []
  | c :: rest =>
    if c.crn ∉ seen ∨ c.crn = naStr then c :: dedupGo (c.crn :: seen) rest
    else dedupGo seen rest

/-- De-duplication by CRN from `parse_course_info` (lines 334-343), starting
from an empty seen-set. -/
def parse_course_info_dedup (courses : List CourseRec) : List CourseRec :=
  dedupGo [] courses

/-- The claim's description of the de-duplication, written positionally: a
record survives exactly when its CRN is `"N/A"` or no earlier record carries
the same CRN, survivors keeping their original order. -/
def dedupKeepFirstSpec (cs : List CourseRec) : List CourseRec :=
  (cs.enum.filter (fun p : Nat × CourseRec =>
    decide (p.2.crn = naStr ∨ ∀ d ∈ cs.take p.1, d.crn ≠ p.2.crn))).map Prod.snd

/-! ## Row extraction (`_extract_course_from_row`, scraper_module.py lines 345-439) -/

/-- Python `\w` (ASCII model): letters, digits, underscore. -/
def isWordChar (c : Char) : Bool := c.isAlphanum || c = '_'

/-- `CRN_PATTERN` = `\b(\d{5})\b` anchored at the current position: five
digits, with no word character immediately after. -/
def crnAt (l : List Char) : Option (List Char) :=
  match l with
  | a :: b :: c :: d :: e :: rest =>
    if a.isDigit && b.isDigit && c.isDigit && d.isDigit && e.isDigit &&
        (match rest with
         | [] => true
         | f :: _ => ¬ isWordChar f) then
      some [a, b, c, d, e]
    else none
  | _ => none

/-- `CRN_PATTERN.search`, scanning left to right; a position qualifies only
when the previous character is not a word character (the leading `\b`). -/
def crnSearchAux (prevIsWord : Bool) : List Char → Option (List Char)
  | [] => none
  | c :: rest =>
    if ¬ prevIsWord then
      match crnAt (c :: rest) with
      | some g => some g
      | none => crnSearchAux (isWordChar c) rest
    else crnSearchAux (isWordChar c) rest

/-- `CRN_PATTERN.search(text)`: first standalone five-digit token. -/
def crnSearch (l : List Char) : Option (List Char) := crnSearchAux false l

/-- Match `[A-Z][a-z]+` at the head, returning the rest. -/
def upperLowerWord (l : List Char) : Option (List Char) :=
  match l with
  | c :: rest =>
    if c.isUpper then
      if rest.takeWhile Char.isLower = [] then none
      else some (rest.dropWhile Char.isLower)
    else none
  | [] => none

/-- Python's `$` anchor: end of input, or just before a final newline. -/
def endAnchor (l : List Char) : Bool := l = [] || l = ['\n']

/-- Match `\s+` at the head, returning the rest. -/
def wsPlus (l : List Char) : Option (List Char) :=
  match l with
  | c :: rest => if isPySpace c then some (rest.dropWhile isPySpace) else none
  | [] => none

/-- `NAME_PATTERN_FIRST_LAST` = `^([A-Z][a-z]+\s+[A-Z][a-z]+)$`. -/
def namePatternFirstLast (l : List Char) : Bool :=
  match upperLowerWord l with
  | none => false
  | some r1 =>
    match wsPlus r1 with
    | none => false
    | some r2 =>
      match upperLowerWord r2 with
      | none => false
      | some r3 => endAnchor r3

/-- `NAME_PATTERN_FIRST_M_LAST` = `^([A-Z][a-z]+\s+[A-Z]\.\s+[A-Z][a-z]+)$`. -/
def namePatternFirstMLast (l : List Char) : Bool :=
  match upperLowerWord l with
  | none => false
  | some r1 =>
    match wsPlus r1 with
    | none => false
    | some r2 =>
      match r2 with
      | c :: '.' :: r3 =>
        if c.isUpper then
          match wsPlus r3 with
          | none => false
          | some r4 =>
            match upperLowerWord r4 with
            | none => false
            | some r5 => endAnchor r5
        else false
      | _ => false

/-- `NAME_PATTERN_LAST_FIRST` =
`^([A-Z][a-z]+(?:-[A-Z][a-z]+)?),\s+([A-Z][a-z]+(?:\s+[A-Z][a-z]+)?)$`.
The optional groups are tried greedily and dropped on failure, exactly as
the regex backtracks. -/
def namePatternLastFirst (l : List Char) : Bool :=
  match upperLowerWord l with
  | none => false
  | some r1 =>
    let afterSurname :=
      match r1 with
      | '-' :: r => (upperLowerWord r).map (fun r2 => r2)
      | _ => none
    let r2 := match afterSurname with
      | some r => r
      | none => r1
    match r2 with
    | ',' :: r3 =>
      (match wsPlus r3 with
       | none => false
       | some r4 =>
         match upperLowerWord r4 with
         | none => false
         | some r5 =>
           if endAnchor r5 then true
           else
             match wsPlus r5 with
             | none => false
             | some r6 =>
               match upperLowerWord r6 with
               | none => false
               | some r7 => endAnchor r7)
    | _ => false

/-- `EXCLUDE_TERMS` from `scraper_module.py`. -/
def excludeTerms : List (List Char) :=
  ["view".toList, "footnote".toList, "math".toList, "calculus".toList,
   "class".toList, "meets".toList, "campus".toList, "online".toList,
   "hybrid".toList, "tba".toList, "tbd".toList, "am".toList, "pm".toList,
   "open".toList, "wl".toList]

/-- One table cell, as the extractor reads it: the stripped concatenated
cell text, the stripped text of a `<span class="days">` child if present,
and the stripped text of a directory-link anchor if present. -/
structure Cell where
  text : List Char
  daysSpan : Option (List Char)
  profLink : Option (List Char)
deriving DecidableEq

/-- One table row: its cells in order, and whether the row carries a
`skittle ... hybrid` span. -/
structure Row where
  cells : List Cell
  hybridSkittle : Bool
deriving DecidableEq

/-- The extractor's loop state.  Python keeps `crn`, `days`, `time_str` and
`professor` as `None`-or-string and tests them with truthiness, so the
empty list models both "never assigned" and "assigned an empty string". -/
structure RowState where
  crn : List Char
  days : List Char
  time_str : List Char
  professor : List Char
deriving DecidableEq

/-- The initial loop state (all fields unset). -/
def initRowState : RowState := ⟨[], [], [], []⟩

/-- The days extracted from a `<span class="days">`: strip the middle-dot
separators, keep canonical day letters, and join multiple letters with
spaces. -/
def daysFromSpan (spanText : List Char) : List Char :=
  let daysText := spanText.filter (fun c => c ≠ '·')
  if daysText ≠ [] then
    let filtered := daysText.filter isDayLetter
    if 1 < filtered.length then List.intersperse ' ' filtered else filtered
  else []

/-- The professor fallback heuristic on one cell's text (the `elif` chain of
lines 398-409): the text is non-empty, a CRN has been seen, the text
contains neither that CRN nor the course code, and either a name-shaped
pattern matches or the text is 2-4 capitalized words with no digit and no
excluded term. -/
def professorHeuristic (courseCode crn text : List Char) : List Char :=
  let textUpper := text.map Char.toUpper
  if text ≠ [] && crn ≠ [] && ¬ occursIn crn text &&
      ¬ occursIn (courseCode.map Char.toUpper) textUpper then
    if namePatternLastFirst text || namePatternFirstLast text ||
        namePatternFirstMLast text then text
    else
      let words := pySplit text
      if 2 ≤ words.length && words.length ≤ 4 then
        if words.all (fun w => w ≠ [] && (w.headD ' ').isUpper) then
          let textLower := text.map Char.toLower
          if (¬ excludeTerms.any (fun t => occursIn t textLower)) &&
              ¬ text.any Char.isDigit then text
          else []
        else []
      else []
  else []

/-- One iteration of the extractor's single pass over the cells: each field
is filled only while still unset, in source order (CRN, days, time,
professor); the professor branch reads the CRN state updated earlier in the
same iteration. -/
def stepCell (courseCode : List Char) (st : RowState) (cell : Cell) : RowState :=
  let text := cell.text
  let textUpper := text.map Char.toUpper
  let crn :=
    if st.crn = [] then
      match crnSearch text with
      | some c => c
      | none => []
    else st.crn
  let days :=
    if st.days = [] then
      match cell.daysSpan with
      | some spanText => daysFromSpan spanText
      | none => []
    else st.days
  let time_str :=
    if st.time_str = [] then
      if (searchTimeGroups text).isSome then pyStrip text
      else if occursIn "TBA".toList textUpper then "TBA".toList
      else []
    else st.time_str
  let professor :=
    if st.professor = [] then
      match cell.profLink with
      | some ptext => ptext
      | none => professorHeuristic courseCode crn text
    else st.professor
  ⟨crn, days, time_str, professor⟩

/-- The full single pass over a row's cells. -/
def runCells (courseCode : List Char) (st : RowState) (cells : List Cell) : RowState :=
  cells.foldl (stepCell courseCode) st

/-- `' '.join(cell_texts).lower()`. -/
def rowTextLower (row : Row) : List Char :=
  (List.intercalate [' '] (row.cells.map Cell.text)).map Char.toLower

/-- The online/in-person classification of lines 419-427, in source branch
order; the empty list models the unset `None`. -/
def isOnlineOf (row : Row) : List Char :=
  let rtl := rowTextLower row
  if row.hybridSkittle || occursIn "hybrid".toList rtl then "Hybrid".toList
  else if occursIn "fully online".toList rtl ||
      (occursIn "online class".toList rtl && ¬ occursIn "hybrid".toList rtl) then
    "Online".toList
  else if occursIn "fully on-campus".toList rtl ||
      occursIn "on-campus".toList rtl then "In-Person".toList
  else if occursIn "online".toList rtl && ¬ occursIn "hybrid".toList rtl then
    "Online".toList
  else []

/-- `_extract_course_from_row` from `scraper_module.py` (lines 345-439):
run the single pass, combine days and time into `class_time`, classify the
format, and emit a record only when a CRN was found, the remaining fields
falling back to their sentinels. -/
def extract_course_from_row (courseCode : List Char) (row : Row) : Option CourseRec :=
  let st := runCells courseCode initRowState row.cells
  let class_time :=
    if st.time_str ≠ [] then
      (if st.days ≠ [] then st.days ++ ' ' :: st.time_str else st.time_str)
    else []
  let is_online := isOnlineOf row
  if st.crn ≠ [] then
    some { course := courseCode, crn := st.crn,
           professor := if st.professor ≠ [] then st.professor else "TBA".toList,
           class_time := if class_time ≠ [] then class_time else "TBA".toList,
           format := if is_online ≠ [] then is_online else "Unknown".toList }
  else none

/-- A CRN token occurs in some cell of the row. -/
def rowHasCRN (row : Row) : Bool :=
  row.cells.any (fun c => (crnSearch c.text).isSome)

/-! ## Fetch retry (`get_listings`, scraper_module.py lines 198-253) -/

/-- Observable events of the fetch loop: an attempt with its 0-based index,
and a sleep of a number of seconds. -/
inductive FetchEvent where
  | attempt : Nat → FetchEvent
  | sleep : Nat → FetchEvent
deriving DecidableEq

/-- The aggregate failure raised after exhausting retries: the attempt count
and the last observed cause. -/
structure FetchFailure (E : Type) where
  attempts : Nat
  lastCause : Option E
deriving DecidableEq

/-- The retry loop of `get_listings`: attempt `k` runs the fetch-and-validate
body (modelled as an oracle from attempt index to outcome); success returns
at once, failure records the cause and, when another attempt remains, sleeps
`(k + 1) * 2` seconds; after `maxRetries` failures the aggregate error with
the last cause is raised.  Returns the result together with the trace of
attempts and sleeps. -/
def getListingsGo {P E : Type} (f : Nat → Except E P) (maxRetries : Nat)
    (k : Nat) (last : Option E) : Except (FetchFailure E) P × List FetchEvent :=
  if k < maxRetries then
    match f k with
    | .ok p => (.ok p, [.attempt k])
    | .error e =>
      ((getListingsGo f maxRetries (k + 1) (some e)).1,
        if k < maxRetries - 1 then
          .attempt k :: .sleep ((k + 1) * 2) ::
            (getListingsGo f maxRetries (k + 1) (some e)).2
        else .attempt k :: (getListingsGo f maxRetries (k + 1) (some e)).2)
  else (.error ⟨maxRetries, last⟩, [])
termination_by maxRetries - k
decreasing_by omega

/-- `get_listings` from `scraper_module.py` (lines 198-253), starting at
attempt 0 with no recorded cause. -/
def get_listings {P E : Type} (f : Nat → Except E P) (maxRetries : Nat) :
    Except (FetchFailure E) P × List FetchEvent :=
  getListingsGo f maxRetries 0 none

/-- Number of attempts in a fetch trace. -/
def countAttempts (tr : List FetchEvent) : Nat :=
  tr.countP (fun e => match e with | .attempt _ => true | _ => false)

/-- The trace of a run that first succeeds at attempt `k`: attempts 0
through `k`, with the backoff sleep after each failed attempt. -/
def successTrace (k : Nat) : List FetchEvent :=
  (List.range k).flatMap (fun j => [.attempt j, .sleep ((j + 1) * 2)]) ++ [.attempt k]

/-- The trace of a run whose `n` attempts all fail: attempts 0 through
`n - 1`, with a sleep after every attempt but the last. -/
def failTrace (n : Nat) : List FetchEvent :=
  (List.range (n - 1)).flatMap (fun j => [.attempt j, .sleep ((j + 1) * 2)]) ++
    [.attempt (n - 1)]

/-! ## Rating resolution (`get_professor_ratings`, scraper_module.py lines 493-693) -/

/-- One result card of the ratings search page.  The card's display name and
link are text; the outcomes of the card-level probes (find an element, parse
its text as a number) are modelled as optional values, numeric parses being
abstract in `V` since the logic never inspects them. -/
structure RCard (V : Type) where
  cardName : Option (List Char)
  href : Option (List Char)
  rating : Option V
  numRatings : Option Nat
  difficultyLabeled : Option V
  difficultyAlt : Option V
deriving DecidableEq

/-- The parsed ratings page: HTTP status, the result cards, and the
profile-page fallback probes. -/
structure RPage (V : Type) where
  status200 : Bool
  teacherCards : List (RCard V)
  profileRating : Option V
  profileNumRatings : Option Nat
  profileDifficultyLabeled : Option V
  profileDifficultyAlt : Option V
deriving DecidableEq

/-- The returned subset of rating data. -/
structure RatingResult (V : Type) where
  rating : Option V
  num_ratings : Option Nat
  difficulty : Option V
  url : Option (List Char)
deriving DecidableEq

/-- The card-selection loop: the first card whose extractable display name
satisfies the strict matcher; cards without an extractable name are
skipped. -/
def findMatchingCard {V : Type} (profName : List Char) :
    List (RCard V) → Option (RCard V)
  | [] => none
  | c :: rest =>
    match c.cardName with
    | some nm =>
      if match_professor_name_strict profName nm then some c
      else findMatchingCard profName rest
    | none => findMatchingCard profName rest

/-- The profile-URL extraction of lines 574-581: the card's `href`, when
truthy, yields an absolute URL either by prefixing the site origin onto a
`/professor/` path or by being used as-is when it is already absolute. -/
def professorUrlOf {V : Type} (card : RCard V) : Option (List Char) :=
  match card.href with
  | some h =>
    if h = [] then none
    else if "/professor/".toList.isPrefixOf h then
      some ("https://www.ratemyprofessors.com".toList ++ h)
    else if "http".toList.isPrefixOf h then some h
    else none
  | none => none

/-- `get_professor_ratings` from `scraper_module.py` (lines 493-693):
non-200 yields nothing; no result cards yields nothing; no strictly
matching card yields nothing; otherwise each of rating, review count and
difficulty is taken from the card with the profile page as fallback, and a
result is returned only when at least one of those three was found (the
final guard of lines 681-689, which does not consult the URL). -/
def get_professor_ratings {V : Type} (profName : List Char) (page : RPage V) :
    Option (RatingResult V) :=
  if page.status200 = false then none
  else if page.teacherCards.isEmpty then none
  else
    match findMatchingCard profName page.teacherCards with
    | none => none
    | some card =>
      let url := professorUrlOf card
      let rating := card.rating <|> page.profileRating
      let numRatings := card.numRatings <|> page.profileNumRatings
      let difficulty :=
        (card.difficultyLabeled <|> card.difficultyAlt) <|>
          (page.profileDifficultyLabeled <|> page.profileDifficultyAlt)
      if rating.isSome || numRatings.isSome || difficulty.isSome then
        some ⟨rating, numRatings, difficulty, url⟩
      else none

/-! ## Concrete inputs used by witnesses and counterexamples -/

/-- Example records used by the concrete de-duplication cases: two records
sharing CRN 12345 and two records with the "N/A" sentinel. -/
def recA : CourseRec :=
  ⟨"MATH 1A".toList, "12345".toList, "Alpha Beta".toList, "TBA".toList, "Unknown".toList⟩

/-- Second record with CRN 12345. -/
def recB : CourseRec :=
  ⟨"MATH 1A".toList, "12345".toList, "Gamma Delta".toList, "TBA".toList, "Online".toList⟩

/-- First record with sentinel CRN. -/
def recNA1 : CourseRec :=
  ⟨"MATH 1A".toList, naStr, "Epsilon Zeta".toList, "TBA".toList, "Unknown".toList⟩

/-- Second record with sentinel CRN. -/
def recNA2 : CourseRec :=
  ⟨"MATH 1A".toList, naStr, "Eta Theta".toList, "TBA".toList, "Unknown".toList⟩

/-- Interval [510, 645) on days M, W ("08:30 AM-10:45 AM"). -/
def tMW0830 : TimeData :=
  ⟨['M', 'W'], ["Monday".toList, "Wednesday".toList], "08:30 AM".toList,
    "10:45 AM".toList, 510, 645, 135⟩

/-- Interval [630, 700) on days M, W. -/
def tMW1030 : TimeData :=
  ⟨['M', 'W'], ["Monday".toList, "Wednesday".toList], "10:30 AM".toList,
    "11:40 AM".toList, 630, 700, 70⟩

/-- Interval [510, 600) on days M, W. -/
def tMW510 : TimeData :=
  ⟨['M', 'W'], ["Monday".toList, "Wednesday".toList], "08:30 AM".toList,
    "10:00 AM".toList, 510, 600, 90⟩

/-- Interval [600, 690) on days M, W (back-to-back with `tMW510`). -/
def tMW600 : TimeData :=
  ⟨['M', 'W'], ["Monday".toList, "Wednesday".toList], "10:00 AM".toList,
    "11:30 AM".toList, 600, 690, 90⟩

/-- Interval [510, 645) on days T, F (disjoint from M, W). -/
def tTF0830 : TimeData :=
  ⟨['T', 'F'], ["Tuesday".toList, "Friday".toList], "08:30 AM".toList,
    "10:45 AM".toList, 510, 645, 135⟩

/-- Section on M, W at [510, 645). -/
def secA : Course := ⟨"11111".toList, "MATH 1A".toList, "Alpha Beta".toList, some tMW0830⟩

/-- Section on M, W at [630, 700): overlaps `secA`. -/
def secB : Course := ⟨"22222".toList, "MATH 1A".toList, "Gamma Delta".toList, some tMW1030⟩

/-- Section on T, F at [510, 645): day-disjoint from `secA`. -/
def secC : Course := ⟨"33333".toList, "MATH 1A".toList, "Epsilon Zeta".toList, some tTF0830⟩

/-- Section on M, W at [510, 600). -/
def secD : Course := ⟨"44444".toList, "MATH 1A".toList, "Eta Theta".toList, some tMW510⟩

/-- Section on M, W at [600, 690): back-to-back with `secD`. -/
def secE : Course := ⟨"55555".toList, "MATH 1A".toList, "Iota Kappa".toList, some tMW600⟩

/-- A cell whose text is just a CRN. -/
def wCell : Cell := ⟨"30123".toList, none, none⟩

/-- A row containing only the CRN cell. -/
def wRow : Row := ⟨[wCell], false⟩

/-- The record extracted from `wRow`. -/
def wRec : CourseRec :=
  ⟨"MATH 1A".toList, "30123".toList, "TBA".toList, "TBA".toList, "Unknown".toList⟩

/-- A fetch oracle that fails on attempt 0 and succeeds on attempt 1. -/
def fetchOkSecond : Nat → Except Nat Nat := fun k => if k = 1 then .ok 7 else .error k

/-- A fetch oracle that fails on every attempt. -/
def fetchAllFail : Nat → Except Nat Nat := fun k => .error (k + 10)

/-- A result card matching "Clare Nguyen" with a profile link but no
parseable rating, count or difficulty. -/
def cardUrlOnly : RCard Int :=
  ⟨some ("Clare Nguyen".toList), some ("/professor/123".toList), none, none, none, none⟩

/-- A page whose only card is `cardUrlOnly`, with no profile fallbacks. -/
def pageUrlOnly : RPage Int := ⟨true, [cardUrlOnly], none, none, none, none⟩

/-- A result card matching "Clare Nguyen" with a rating and review count. -/
def cardRated : RCard Int :=
  ⟨some ("Clare Nguyen".toList), some ("/professor/123".toList), some 4, some 12, none, none⟩

/-- A page whose only card is `cardRated`, with a profile-page difficulty. -/
def pageRated : RPage Int := ⟨true, [cardRated], none, none, some 3, none⟩

/-! ## Helper lemmas -/

/-- Characterization of the strict matcher: it succeeds exactly when both
normalized sequences have at least two tokens and first/last tokens agree
directly or in reversed pairing. -/
theorem match_strict_char (a b : List Char) :
    match_professor_name_strict a b = true ↔
      2 ≤ (normalize_name a).length ∧ 2 ≤ (normalize_name b).length ∧
        (((normalize_name a).headD [] = (normalize_name b).headD [] ∧
          (normalize_name a).getLastD [] = (normalize_name b).getLastD []) ∨
         ((normalize_name a).headD [] = (normalize_name b).getLastD [] ∧
          (normalize_name a).getLastD [] = (normalize_name b).headD [])) := by
  simp only [match_professor_name_strict]
  split_ifs with h1 h2 h3 h4 h5
  · simp only [Bool.false_eq_true, false_iff]
    rintro ⟨hx, -, -⟩; omega
  · simp only [Bool.false_eq_true, false_iff]
    rintro ⟨-, hx, -⟩; omega
  · simp only [true_iff]
    rw [Bool.and_eq_true, beq_iff_eq, beq_iff_eq] at h3
    exact ⟨by omega, by omega, Or.inl h3⟩
  · simp only [true_iff]
    rw [Bool.and_eq_true, beq_iff_eq, beq_iff_eq] at h5
    exact ⟨by omega, by omega, Or.inr h5⟩
  · simp only [Bool.false_eq_true, false_iff]
    rintro ⟨-, -, hor | hor⟩
    · exact h3 (by rw [Bool.and_eq_true, beq_iff_eq, beq_iff_eq]; exact hor)
    · exact h5 (by rw [Bool.and_eq_true, beq_iff_eq, beq_iff_eq]; exact hor)
  · exact (h4 (by omega)).elim

/-- The post-filter's `filterMap` over an enumerated list, once the branches
are collapsed, ignores the index. -/
theorem filterMap_enumFrom_clean :
    ∀ (l : List (List Char)) (n : Nat),
      (l.enumFrom n).filterMap (fun ip =>
          if 1 < (cleanToken ip.2).length then some (cleanToken ip.2) else none) =
        l.filterMap (fun t =>
          if 1 < (cleanToken t).length then some (cleanToken t) else none)
  | [], _ => rfl
  | a :: t, n => by
    simp only [List.enumFrom_cons, List.filterMap_cons]
    rw [filterMap_enumFrom_clean t (n + 1)]

/-- Filtering through an optional map that keeps exactly the long cleaned
tokens equals mapping then filtering. -/
theorem filterMap_clean (l : List (List Char)) :
    l.filterMap (fun a =>
        if 1 < (cleanToken a).length then some (cleanToken a) else none) =
      (l.map cleanToken).filter (fun t => 1 < t.length) := by
  induction l with
  | nil => rfl
  | cons a t ih =>
    simp only [List.filterMap_cons, List.map_cons, List.filter_cons]
    by_cases h : 1 < (cleanToken a).length <;> simp [h, ih]

/-! ## Claim theorems -/

/-- C2: the Time Parser maps "M W 08:30 AM-10:45 AM" to days [M, W],
start 510, end 645, duration 135, and returns none for "TBA" and for the
empty string. -/
theorem C2_time_parser_examples :
    (parse_class_time ("M W 08:30 AM-10:45 AM".toList)).map
        (fun t => (t.days, t.start_minutes, t.end_minutes, t.duration_minutes)) =
      some (['M', 'W'], 510, 645, (135 : Int)) ∧
    parse_class_time ("TBA".toList) = none ∧
    parse_class_time ([]) = none := by
  refine ⟨by decide, by decide, by decide⟩

/-- C3: the Name Matcher returns true exactly when both normalized token
sequences have at least two tokens and first/last tokens agree directly or
in the reversed pairing; in particular on the four quoted examples. -/
theorem C3_name_matcher :
    (∀ a b : List Char,
        match_professor_name_strict a b = true ↔
          2 ≤ (normalize_name a).length ∧ 2 ≤ (normalize_name b).length ∧
            (((normalize_name a).headD [] = (normalize_name b).headD [] ∧
              (normalize_name a).getLastD [] = (normalize_name b).getLastD []) ∨
             ((normalize_name a).headD [] = (normalize_name b).getLastD [] ∧
              (normalize_name a).getLastD [] = (normalize_name b).headD []))) ∧
    match_professor_name_strict ("Clare Nguyen".toList) ("Clare M. Nguyen".toList) = true ∧
    match_professor_name_strict ("Clare Nguyen".toList) ("John Nguyen".toList) = false ∧
    match_professor_name_strict ("Roderic Taylor".toList) ("RodericTaylor".toList) = true ∧
    match_professor_name_strict ("Christopher Bradley".toList) ("Christopher N.Bradley".toList) = true :=
  ⟨match_strict_char, by decide, by decide, by decide, by decide⟩

/-- C4 counterexample: the claim says a single-letter token at the first
position of the sequence is retained, but the post-filter drops it: on
["A", "Smith"] the cleaned first token "a" has length 1 and the output is
just ["smith"]. -/
theorem C4_counterexample :
    cleanToken ("A".toList) = ['a'] ∧
    filterParts ["A".toList, "Smith".toList] = ["smith".toList] := by
  refine ⟨by decide, by decide⟩

/-- C4 (amended): the post-filter discards every token whose cleaned form
has length at most one - single-letter tokens at any position, first and
last included, as well as empty tokens - keeping exactly the cleaned tokens
of length at least two, in order. -/
theorem C4_postfilter_amended (parts : List (List Char)) :
    filterParts parts = (parts.map cleanToken).filter (fun t => 1 < t.length) := by
  unfold filterParts
  have hcollapse : ∀ (n m : Nat) (t : List Char),
      (if 1 < (cleanToken t).length then some (cleanToken t)
       else if (cleanToken t).length = 1 && 0 < n && n < m then none
       else if (cleanToken t).length = 1 then none
       else none) =
        (if 1 < (cleanToken t).length then some (cleanToken t) else none) := by
    intro n m t
    split_ifs <;> rfl
  simp only [hcollapse]
  rw [List.enum, filterMap_enumFrom_clean, filterMap_clean]

/-- The de-duplication loop keeps a subsequence of its input, hence
preserves relative order. -/
theorem dedupGo_sublist :
    ∀ (rest : List CourseRec) (seen : List (List Char)),
      (dedupGo seen rest).Sublist rest
  | [], _ => List.Sublist.slnil
  | c :: rs, seen => by
    simp only [dedupGo]
    split_ifs with hg
    · exact (dedupGo_sublist rs (c.crn :: seen)).cons₂ c
    · exact (dedupGo_sublist rs seen).cons c

/-- The de-duplication loop computes the positional keep-first filter: with
processed prefix `pre` and a seen-set holding exactly the prefix's CRNs, the
loop keeps precisely the records whose CRN is the sentinel or absent from
all earlier records. -/
theorem dedupGo_spec :
    ∀ (rest pre : List CourseRec) (seen : List (List Char)),
      (∀ s, s ∈ seen ↔ s ∈ pre.map CourseRec.crn) →
      dedupGo seen rest =
        ((rest.enumFrom pre.length).filter (fun p : Nat × CourseRec =>
          decide (p.2.crn = naStr ∨
            ∀ d ∈ (pre ++ rest).take p.1, d.crn ≠ p.2.crn))).map Prod.snd
  | [], _, _, _ => rfl
  | c :: rs, pre, seen, hseen => by
    simp only [dedupGo, List.enumFrom_cons, List.filter_cons]
    have htake : (pre ++ c :: rs).take pre.length = pre := List.take_left' rfl
    have hiff : (c.crn = naStr ∨ ∀ d ∈ (pre ++ c :: rs).take pre.length, d.crn ≠ c.crn)
        ↔ (c.crn ∉ seen ∨ c.crn = naStr) := by
      rw [htake]
      constructor
      · rintro (h | h)
        · exact Or.inr h
        · refine Or.inl (fun hc => ?_)
          rcases List.mem_map.mp ((hseen c.crn).mp hc) with ⟨d, hd, hdc⟩
          exact h d hd hdc
      · rintro (h | h)
        · exact Or.inr (fun d hd hdc => h ((hseen c.crn).mpr (List.mem_map.mpr ⟨d, hd, hdc⟩)))
        · exact Or.inl h
    by_cases hg : c.crn ∉ seen ∨ c.crn = naStr
    · rw [if_pos hg, if_pos (by rw [decide_eq_true_iff]; exact hiff.mpr hg)]
      simp only [List.map_cons]
      congr 1
      have hseen' : ∀ s, s ∈ (c.crn :: seen) ↔ s ∈ (pre ++ [c]).map CourseRec.crn := by
        intro s
        simp only [List.mem_cons, List.map_append, List.map_cons, List.map_nil,
          List.mem_append, List.mem_singleton, hseen s]
        tauto
      have hrec := dedupGo_spec rs (pre ++ [c]) (c.crn :: seen) hseen'
      simp only [List.length_append, List.length_singleton] at hrec
      rw [List.append_cons]
      exact hrec
    · rw [if_neg hg, if_neg (by rw [decide_eq_true_iff]; exact fun h => hg (hiff.mp h))]
      have hc : c.crn ∈ seen := by
        by_contra hc
        exact hg (Or.inl hc)
      have hseen' : ∀ s, s ∈ seen ↔ s ∈ (pre ++ [c]).map CourseRec.crn := by
        intro s
        simp only [List.map_append, List.map_cons, List.map_nil, List.mem_append,
          List.mem_singleton, hseen s]
        constructor
        · exact fun h => Or.inl h
        · rintro (h | h)
          · exact h
          · subst h
            exact (hseen c.crn).mp hc
      have hrec := dedupGo_spec rs (pre ++ [c]) seen hseen'
      simp only [List.length_append, List.length_singleton] at hrec
      rw [List.append_cons]
      exact hrec

/-- C5: the de-duplication keeps, for each CRN other than "N/A", only the
first record in encounter order; "N/A" records are all kept; the survivors
keep their original relative order (subsequence); and the two concrete
cases from the spec hold. -/
theorem C5_dedup_keep_first :
    (∀ cs : List CourseRec,
        parse_course_info_dedup cs = dedupKeepFirstSpec cs ∧
        (parse_course_info_dedup cs).Sublist cs) ∧
    parse_course_info_dedup [recA, recB] = [recA] ∧
    parse_course_info_dedup [recNA1, recNA2] = [recNA1, recNA2] := by
  refine ⟨fun cs => ⟨?_, dedupGo_sublist cs []⟩, by decide, by decide⟩
  have h := dedupGo_spec cs [] [] (by simp)
  simpa [parse_course_info_dedup, dedupKeepFirstSpec, List.enum] using h

/-- Membership in the instrumented inner loop: exactly the offsets whose
course carries an interval satisfying the conflict condition against the
outer course's interval. -/
theorem mem_innerPairs (t1 : TimeData) (i : Nat) :
    ∀ (l : List Course) (j a b : Nat),
      (a, b) ∈ innerPairs t1 i j l ↔
        ∃ k, k < l.length ∧ a = i ∧ b = j + k ∧
          ∃ t2, ((l.getD k dCourse).time_data = some t2 ∧ conflictCond t1 t2)
  | [], j, a, b => by simp [innerPairs]
  | c2 :: rest, j, a, b => by
    have hrec := mem_innerPairs t1 i rest (j + 1) a b
    have hshift :
        (∃ k, k < rest.length ∧ a = i ∧ b = (j + 1) + k ∧
          ∃ t2, ((rest.getD k dCourse).time_data = some t2 ∧ conflictCond t1 t2)) ↔
        (∃ k, 0 < k ∧ k < (c2 :: rest).length ∧ a = i ∧ b = j + k ∧
          ∃ t2, (((c2 :: rest).getD k dCourse).time_data = some t2 ∧
            conflictCond t1 t2)) := by
      constructor
      · rintro ⟨k, hk, h1, h2, t2, ht2, hcond⟩
        exact ⟨k + 1, by omega, by simp only [List.length_cons]; omega, h1, by omega,
          t2, by simpa using ht2, hcond⟩
      · rintro ⟨k, hk0, hk, h1, h2, t2, ht2, hcond⟩
        cases k with
        | zero => omega
        | succ k' =>
          exact ⟨k', by simp only [List.length_cons] at hk; omega, h1, by omega,
            t2, by simpa using ht2, hcond⟩
    simp only [innerPairs]
    cases hc : c2.time_data with
    | none =>
      dsimp only
      rw [hrec, hshift]
      constructor
      · rintro ⟨k, hk0, hk, h1, h2, t2, ht2, hcond⟩
        exact ⟨k, hk, h1, h2, t2, ht2, hcond⟩
      · rintro ⟨k, hk, h1, h2, t2, ht2, hcond⟩
        refine ⟨k, ?_, hk, h1, h2, t2, ht2, hcond⟩
        cases k with
        | zero =>
          rw [List.getD_cons_zero, hc] at ht2
          simp at ht2
        | succ k' => omega
    | some t2' =>
      dsimp only
      by_cases hcond2 : conflictCond t1 t2'
      · rw [if_pos hcond2]
        simp only [List.mem_cons, Prod.mk.injEq]
        rw [hrec, hshift]
        constructor
        · rintro (⟨rfl, rfl⟩ | ⟨k, hk0, hk, h1, h2, t2, ht2, hcond⟩)
          · exact ⟨0, by simp, rfl, by omega, t2', by simp [hc], hcond2⟩
          · exact ⟨k, hk, h1, h2, t2, ht2, hcond⟩
        · rintro ⟨k, hk, h1, h2, t2, ht2, hcond⟩
          cases k with
          | zero =>
            rw [List.getD_cons_zero, hc] at ht2
            exact Or.inl ⟨h1, by omega⟩
          | succ k' =>
            exact Or.inr ⟨k' + 1, by omega, hk, h1, h2, t2, ht2, hcond⟩
      · rw [if_neg hcond2]
        rw [hrec, hshift]
        constructor
        · rintro ⟨k, hk0, hk, h1, h2, t2, ht2, hcond⟩
          exact ⟨k, hk, h1, h2, t2, ht2, hcond⟩
        · rintro ⟨k, hk, h1, h2, t2, ht2, hcond⟩
          refine ⟨k, ?_, hk, h1, h2, t2, ht2, hcond⟩
          cases k with
          | zero =>
            rw [List.getD_cons_zero, hc] at ht2
            injection ht2 with h
            subst h
            exact absurd hcond hcond2
          | succ k' => omega

/-- Membership in the instrumented outer loop, with absolute indices. -/
theorem mem_conflictPairsAux :
    ∀ (l : List Course) (i a b : Nat),
      (a, b) ∈ conflictPairsAux i l ↔
        (i ≤ a ∧ a < b ∧ b < i + l.length ∧
          ∃ t1 t2, (l.getD (a - i) dCourse).time_data = some t1 ∧
            (l.getD (b - i) dCourse).time_data = some t2 ∧ conflictCond t1 t2)
  | [], i, a, b => by
    simp only [conflictPairsAux, List.not_mem_nil, List.length_nil, false_iff]
    rintro ⟨h1, h2, h3, -⟩
    omega
  | c1 :: rest, i, a, b => by
    have hrec := mem_conflictPairsAux rest (i + 1) a b
    simp only [conflictPairsAux, List.mem_append]
    rw [hrec]
    constructor
    · rintro (hmem | ⟨h1, h2, h3, t1, t2, ht1, ht2, hcond⟩)
      · cases hc : c1.time_data with
        | none =>
          rw [hc] at hmem
          exact absurd hmem (List.not_mem_nil _)
        | some t1 =>
          rw [hc] at hmem
          rcases (mem_innerPairs t1 i rest (i + 1) a b).mp hmem with
            ⟨k, hk, ha, hb, t2, ht2, hcond⟩
          subst ha
          refine ⟨le_refl a, by omega, by simp only [List.length_cons]; omega,
            t1, t2, ?_, ?_, hcond⟩
          · rw [Nat.sub_self, List.getD_cons_zero]
            exact hc
          · rw [show b - a = k + 1 by omega, List.getD_cons_succ]
            exact ht2
      · refine ⟨by omega, h2, by simp only [List.length_cons]; omega,
          t1, t2, ?_, ?_, hcond⟩
        · rw [show a - i = (a - (i + 1)) + 1 by omega, List.getD_cons_succ]
          exact ht1
        · rw [show b - i = (b - (i + 1)) + 1 by omega, List.getD_cons_succ]
          exact ht2
    · rintro ⟨h1, h2, h3, t1, t2, ht1, ht2, hcond⟩
      simp only [List.length_cons] at h3
      by_cases ha : a = i
      · subst ha
        rw [Nat.sub_self, List.getD_cons_zero] at ht1
        rw [ht1]
        refine Or.inl ((mem_innerPairs t1 a rest (a + 1) a b).mpr
          ⟨b - (a + 1), by omega, rfl, by omega, t2, ?_, hcond⟩)
        rw [show b - a = (b - (a + 1)) + 1 by omega, List.getD_cons_succ] at ht2
        exact ht2
      · refine Or.inr ⟨by omega, h2, by omega, t1, t2, ?_, ?_, hcond⟩
        · rw [show a - i = (a - (i + 1)) + 1 by omega, List.getD_cons_succ] at ht1
          exact ht1
        · rw [show b - i = (b - (i + 1)) + 1 by omega, List.getD_cons_succ] at ht2
          exact ht2

/-- Membership in the full pair list, characterized on the input list. -/
theorem mem_conflictPairs (cs : List Course) (a b : Nat) :
    (a, b) ∈ conflictPairs cs ↔
      a < b ∧ b < cs.length ∧
        ∃ t1 t2, (cs.getD a dCourse).time_data = some t1 ∧
          (cs.getD b dCourse).time_data = some t2 ∧ conflictCond t1 t2 := by
  rw [conflictPairs, mem_conflictPairsAux cs 0 a b]
  simp

/-- The shared-day list is non-empty exactly when the day sets intersect. -/
theorem sharedDays_ne_nil_iff (t1 t2 : TimeData) :
    sharedDays t1 t2 ≠ [] ↔ ∃ d, d ∈ t1.days ∧ d ∈ t2.days := by
  rw [sharedDays, Ne, List.dedup_eq_nil, List.filter_eq_nil_iff]
  push_neg
  constructor
  · rintro ⟨d, hd, hc⟩
    exact ⟨d, hd, by simpa using hc⟩
  · rintro ⟨d, hd1, hd2⟩
    exact ⟨d, hd1, by simpa using hd2⟩

/-- The inner loop's emitted records are the instrumented pairs mapped back
through positional lookup in the ambient list. -/
theorem innerScan_eq_map (cs : List Course) :
    ∀ (l : List Course) (c1 : Course) (t1 : TimeData) (i j : Nat),
      cs.getD i dCourse = c1 → c1.time_data = some t1 →
      (∀ k, k < l.length → cs.getD (j + k) dCourse = l.getD k dCourse) →
      innerScan c1 t1 l = (innerPairs t1 i j l).map (conflictOfPair cs)
  | [], _, _, _, _, _, _, _ => rfl
  | c2 :: rest, c1, t1, i, j, hgi, ht1, hgj => by
    have h0 : cs.getD j dCourse = c2 := by simpa using hgj 0 (by simp)
    have hrest : ∀ k, k < rest.length → cs.getD (j + 1 + k) dCourse = rest.getD k dCourse := by
      intro k hk
      have h := hgj (k + 1) (by simp only [List.length_cons]; omega)
      rw [show j + (k + 1) = j + 1 + k by omega] at h
      simpa using h
    have hrec := innerScan_eq_map cs rest c1 t1 i (j + 1) hgi ht1 hrest
    simp only [innerScan, innerPairs]
    cases hc : c2.time_data with
    | none => exact hrec
    | some t2 =>
      dsimp only
      by_cases hs : sharedDays t1 t2 ≠ []
      · by_cases ho : t1.start_minutes < t2.end_minutes ∧ t1.end_minutes > t2.start_minutes
        · rw [if_pos hs, if_pos ho,
            if_pos (show conflictCond t1 t2 from ⟨hs, ho.1, ho.2⟩)]
          simp only [List.map_cons]
          congr 1
          simp only [conflictOfPair]
          rw [hgi, h0, ht1, hc]
        · rw [if_pos hs, if_neg ho, if_neg (fun hcc : conflictCond t1 t2 => ho ⟨hcc.2.1, hcc.2.2⟩)]
          exact hrec
      · rw [if_neg hs, if_neg (fun hcc : conflictCond t1 t2 => hs hcc.1)]
        exact hrec

/-- The detector's output is the instrumented pair list mapped back through
positional lookup. -/
theorem detect_eq_map_aux (cs : List Course) :
    ∀ (l : List Course) (i : Nat),
      (∀ k, k < l.length → cs.getD (i + k) dCourse = l.getD k dCourse) →
      detect_conflicts l = (conflictPairsAux i l).map (conflictOfPair cs)
  | [], _, _ => rfl
  | c1 :: rest, i, hg => by
    have h0 : cs.getD i dCourse = c1 := by simpa using hg 0 (by simp)
    have hrest : ∀ k, k < rest.length → cs.getD (i + 1 + k) dCourse = rest.getD k dCourse := by
      intro k hk
      have h := hg (k + 1) (by simp only [List.length_cons]; omega)
      rw [show i + (k + 1) = i + 1 + k by omega] at h
      simpa using h
    simp only [detect_conflicts, conflictPairsAux, List.map_append]
    congr 1
    · cases hc : c1.time_data with
      | none => rfl
      | some t1 =>
        dsimp only
        exact innerScan_eq_map cs rest c1 t1 i (i + 1) h0 hc hrest
    · exact detect_eq_map_aux cs rest (i + 1) hrest

/-- `detect_conflicts` equals the instrumented pair list mapped to records. -/
theorem detect_conflicts_eq_pairs_map (cs : List Course) :
    detect_conflicts cs = (conflictPairs cs).map (conflictOfPair cs) :=
  detect_eq_map_aux cs cs 0 (fun k hk => by simp)

/-- Members of the inner pair list carry the outer index and a second index
at least the starting one. -/
theorem innerPairs_fst (t1 : TimeData) (i : Nat) (l : List Course) (j : Nat)
    (p : Nat × Nat) (hp : p ∈ innerPairs t1 i j l) : p.1 = i ∧ j ≤ p.2 := by
  rcases p with ⟨a, b⟩
  rcases (mem_innerPairs t1 i l j a b).mp hp with ⟨k, -, h1, h2, -⟩
  exact ⟨h1, by omega⟩

/-- The inner pair list has strictly increasing second components. -/
theorem innerPairs_pairwise_snd (t1 : TimeData) (i : Nat) :
    ∀ (l : List Course) (j : Nat),
      List.Pairwise (fun p q : Nat × Nat => p.2 < q.2) (innerPairs t1 i j l)
  | [], _ => List.Pairwise.nil
  | c2 :: rest, j => by
    simp only [innerPairs]
    cases hc : c2.time_data with
    | none => exact innerPairs_pairwise_snd t1 i rest (j + 1)
    | some t2 =>
      dsimp only
      by_cases hcond : conflictCond t1 t2
      · rw [if_pos hcond]
        refine List.Pairwise.cons ?_ (innerPairs_pairwise_snd t1 i rest (j + 1))
        intro q hq
        have h := innerPairs_fst t1 i rest (j + 1) q hq
        show j < q.2
        omega
      · rw [if_neg hcond]
        exact innerPairs_pairwise_snd t1 i rest (j + 1)

/-- Members of the outer pair list are bounded below by the starting index
and have first index strictly below the second. -/
theorem mem_conflictPairsAux_bounds (l : List Course) (i : Nat) (p : Nat × Nat)
    (hp : p ∈ conflictPairsAux i l) : i ≤ p.1 ∧ p.1 < p.2 := by
  rcases p with ⟨a, b⟩
  rcases (mem_conflictPairsAux l i a b).mp hp with ⟨h1, h2, -⟩
  exact ⟨h1, h2⟩

/-- The emitted pair list is strictly increasing in the lexicographic order:
first index ascending, then second index ascending. -/
theorem conflictPairsAux_pairwise :
    ∀ (l : List Course) (i : Nat), List.Pairwise pairLexLt (conflictPairsAux i l)
  | [], _ => List.Pairwise.nil
  | c1 :: rest, i => by
    simp only [conflictPairsAux]
    rw [List.pairwise_append]
    refine ⟨?_, conflictPairsAux_pairwise rest (i + 1), ?_⟩
    · cases hc : c1.time_data with
      | none => exact List.Pairwise.nil
      | some t1 =>
        dsimp only
        refine List.Pairwise.imp_of_mem ?_ (innerPairs_pairwise_snd t1 i rest (i + 1))
        intro p q hp hq hlt
        have h1 := innerPairs_fst t1 i rest (i + 1) p hp
        have h2 := innerPairs_fst t1 i rest (i + 1) q hq
        exact Or.inr ⟨by rw [h1.1, h2.1], hlt⟩
    · intro p hp q hq
      cases hc : c1.time_data with
      | none =>
        rw [hc] at hp
        exact absurd hp (List.not_mem_nil _)
      | some t1 =>
        rw [hc] at hp
        have h1 := innerPairs_fst t1 i rest (i + 1) p hp
        have h2 := mem_conflictPairsAux_bounds rest (i + 1) q hq
        exact Or.inl (by omega)

/-- C10: the Name Matcher is symmetric in its two arguments. -/
theorem C10_matcher_symmetric (a b : List Char) :
    match_professor_name_strict a b = match_professor_name_strict b a := by
  rw [Bool.eq_iff_iff]
  simp only [match_strict_char]
  constructor
  · rintro ⟨h1, h2, h3 | h4⟩
    · exact ⟨h2, h1, Or.inl ⟨h3.1.symm, h3.2.symm⟩⟩
    · exact ⟨h2, h1, Or.inr ⟨h4.2.symm, h4.1.symm⟩⟩
  · rintro ⟨h1, h2, h3 | h4⟩
    · exact ⟨h2, h1, Or.inl ⟨h3.1.symm, h3.2.symm⟩⟩
    · exact ⟨h2, h1, Or.inr ⟨h4.2.symm, h4.1.symm⟩⟩

/-- C1: for indices i < j whose sections both carry parsed intervals, a
conflict pair is emitted exactly when the day sets intersect and
`start_i < end_j` and `end_i > start_j`; pairs never reference a section
without an interval; and the emitted records are precisely the emitted
pairs looked up positionally. -/
theorem C1_conflict_detector :
    (∀ (cs : List Course) (i j : Nat) (t1 t2 : TimeData),
        i < j → j < cs.length →
        (cs.getD i dCourse).time_data = some t1 →
        (cs.getD j dCourse).time_data = some t2 →
        ((i, j) ∈ conflictPairs cs ↔
          (∃ d, d ∈ t1.days ∧ d ∈ t2.days) ∧
            t1.start_minutes < t2.end_minutes ∧ t1.end_minutes > t2.start_minutes)) ∧
    (∀ (cs : List Course) (p : Nat × Nat), p ∈ conflictPairs cs →
        p.1 < p.2 ∧ p.2 < cs.length ∧
        (cs.getD p.1 dCourse).time_data.isSome ∧
        (cs.getD p.2 dCourse).time_data.isSome) ∧
    (∀ cs : List Course,
        detect_conflicts cs = (conflictPairs cs).map (conflictOfPair cs)) := by
  refine ⟨?_, ?_, detect_conflicts_eq_pairs_map⟩
  · intro cs i j t1 t2 hij hj ht1 ht2
    rw [mem_conflictPairs]
    constructor
    · rintro ⟨-, -, t1', t2', ht1', ht2', hcond⟩
      rw [ht1] at ht1'
      rw [ht2] at ht2'
      injection ht1' with e1
      injection ht2' with e2
      subst e1
      subst e2
      exact ⟨(sharedDays_ne_nil_iff t1 t2).mp hcond.1, hcond.2.1, hcond.2.2⟩
    · rintro ⟨hdays, hlt, hgt⟩
      exact ⟨hij, hj, t1, t2, ht1, ht2,
        (sharedDays_ne_nil_iff t1 t2).mpr hdays, hlt, hgt⟩
  · intro cs p hp
    rcases p with ⟨a, b⟩
    rcases (mem_conflictPairs cs a b).mp hp with ⟨h1, h2, t1, t2, ht1, ht2, -⟩
    exact ⟨h1, h2, by rw [ht1]; rfl, by rw [ht2]; rfl⟩

/-- C1 witness: overlapping M/W sections [510,645) and [630,700) yield the
pair (0,1); day-disjoint sections do not; back-to-back sections [510,600)
and [600,690) on the same days do not. -/
theorem C1_conflict_detector_witness :
    (0, 1) ∈ conflictPairs [secA, secB] ∧
    ¬ (0, 1) ∈ conflictPairs [secA, secC] ∧
    ¬ (0, 1) ∈ conflictPairs [secD, secE] := by
  have h1 := C1_conflict_detector.1 [secA, secB] 0 1 tMW0830 tMW1030
    (by decide) (by decide) rfl rfl
  have h2 := C1_conflict_detector.1 [secA, secC] 0 1 tMW0830 tTF0830
    (by decide) (by decide) rfl rfl
  have h3 := C1_conflict_detector.1 [secD, secE] 0 1 tMW510 tMW600
    (by decide) (by decide) rfl rfl
  refine ⟨h1.mpr ⟨⟨'M', by decide, by decide⟩, by decide, by decide⟩, ?_, ?_⟩
  · intro hmem
    rcases h2.mp hmem with ⟨⟨d, hd1, hd2⟩, -, -⟩
    simp only [tMW0830, tTF0830, List.mem_cons, List.not_mem_nil, or_false] at hd1 hd2
    rcases hd1 with rfl | rfl <;> rcases hd2 with h | h <;> exact absurd h (by decide)
  · intro hmem
    rcases h3.mp hmem with ⟨-, -, hgt⟩
    exact absurd hgt (by decide)

/-- C9: the Conflict Detector is a pure function (identical runs give
identical output), its output is the emitted pair list looked up
positionally, and the pairs are strictly ascending lexicographically: first
index ascending, then second index ascending. -/
theorem C9_detector_deterministic_ordered (cs : List Course) :
    detect_conflicts cs = detect_conflicts cs ∧
    detect_conflicts cs = (conflictPairs cs).map (conflictOfPair cs) ∧
    List.Pairwise pairLexLt (conflictPairs cs) :=
  ⟨rfl, detect_conflicts_eq_pairs_map cs, conflictPairsAux_pairwise cs 0⟩

/-- A successful CRN match at a position is the non-empty five-digit group. -/
theorem crnAt_ne_nil {l g : List Char} (h : crnAt l = some g) : g ≠ [] := by
  unfold crnAt at h
  split at h
  · split_ifs at h
    injection h with h'
    subst h'
    simp
  · exact Option.noConfusion h

/-- A successful CRN search returns a non-empty group. -/
theorem crnSearchAux_ne_nil :
    ∀ (l : List Char) (prev : Bool) (g : List Char),
      crnSearchAux prev l = some g → g ≠ []
  | [], _, _ => fun h => Option.noConfusion h
  | c :: rest, prev, g => by
    intro h
    unfold crnSearchAux at h
    split_ifs at h with hp
    · exact crnSearchAux_ne_nil rest (isWordChar c) g h
    · split at h
      · rename_i g2 hca
        injection h with h'
        subst h'
        exact crnAt_ne_nil hca
      · rename_i hca
        exact crnSearchAux_ne_nil rest (isWordChar c) g h

/-- A successful CRN search returns a non-empty group. -/
theorem crnSearch_ne_nil {l g : List Char} (h : crnSearch l = some g) : g ≠ [] :=
  crnSearchAux_ne_nil l false g h

/-- One extractor step fills the CRN exactly when it was already filled or
the cell's text contains a CRN token. -/
theorem stepCell_crn (cc : List Char) (st : RowState) (cell : Cell) :
    (stepCell cc st cell).crn ≠ [] ↔
      (st.crn ≠ [] ∨ (crnSearch cell.text).isSome = true) := by
  simp only [stepCell]
  by_cases h : st.crn = []
  · rw [if_pos h]
    cases hs : crnSearch cell.text with
    | none => simp [h, hs]
    | some g =>
      have hg := crnSearch_ne_nil hs
      simp [h, hs, hg]
  · rw [if_neg h]
    simp [h]

/-- The full pass fills the CRN exactly when it was already filled or some
cell contains a CRN token. -/
theorem runCells_crn :
    ∀ (cells : List Cell) (cc : List Char) (st : RowState),
      (runCells cc st cells).crn ≠ [] ↔
        st.crn ≠ [] ∨ cells.any (fun c => (crnSearch c.text).isSome) = true
  | [], cc, st => by simp [runCells]
  | cell :: rest, cc, st => by
    have hstep := stepCell_crn cc st cell
    have hrec := runCells_crn rest cc (stepCell cc st cell)
    simp only [runCells, List.foldl_cons] at hrec ⊢
    rw [hrec, hstep]
    simp only [List.any_cons, Bool.or_eq_true, or_assoc]

/-- A conditional that falls back to a non-empty default is non-empty. -/
theorem ite_ne_nil (l d : List Char) (hd : d ≠ []) : (if l ≠ [] then l else d) ≠ [] := by
  by_cases h : l ≠ [] <;> simp [h, hd]

/-- C6: the Row Extractor emits a record exactly when a CRN token occurs in
some cell; and every emitted record has non-empty professor, class_time and
format, equal to "TBA"/"TBA"/"Unknown" respectively whenever the
corresponding value was not found by the pass. -/
theorem C6_row_extractor (cc : List Char) (row : Row) :
    ((extract_course_from_row cc row).isSome ↔ rowHasCRN row = true) ∧
    (∀ rec, extract_course_from_row cc row = some rec →
      rec.professor ≠ [] ∧ rec.class_time ≠ [] ∧ rec.format ≠ [] ∧
      ((runCells cc initRowState row.cells).professor = [] →
        rec.professor = "TBA".toList) ∧
      ((runCells cc initRowState row.cells).time_str = [] →
        rec.class_time = "TBA".toList) ∧
      (isOnlineOf row = [] → rec.format = "Unknown".toList)) := by
  have hcrn : (runCells cc initRowState row.cells).crn ≠ [] ↔ rowHasCRN row = true := by
    rw [runCells_crn row.cells cc initRowState]
    simp [rowHasCRN, initRowState]
  constructor
  · rw [← hcrn]
    simp only [extract_course_from_row]
    by_cases h : (runCells cc initRowState row.cells).crn ≠ []
    · rw [if_pos h]
      simp [h]
    · rw [if_neg h]
      simp [h]
  · intro rec hrec
    simp only [extract_course_from_row] at hrec
    by_cases h : (runCells cc initRowState row.cells).crn ≠ []
    · rw [if_pos h] at hrec
      injection hrec with hrec
      subst hrec
      refine ⟨ite_ne_nil _ _ (by decide), ite_ne_nil _ _ (by decide),
        ite_ne_nil _ _ (by decide), ?_, ?_, ?_⟩
      · intro hp
        simp [hp]
      · intro hts
        simp [hts]
      · intro hf
        simp [hf]
    · rw [if_neg h] at hrec
      exact Option.noConfusion hrec

/-- C6 witness: a row whose single cell is the CRN "30123" yields a record
with all three sentinel fallbacks. -/
theorem C6_row_extractor_witness :
    extract_course_from_row ("MATH 1A".toList) wRow = some wRec ∧
    wRec.professor ≠ [] ∧ wRec.class_time ≠ [] ∧ wRec.format ≠ [] ∧
    wRec.professor = "TBA".toList ∧ wRec.class_time = "TBA".toList ∧
    wRec.format = "Unknown".toList := by
  have h := (C6_row_extractor ("MATH 1A".toList) wRow).2 wRec (by decide)
  exact ⟨by decide, h.1, h.2.1, h.2.2.1, h.2.2.2.1 (by decide),
    h.2.2.2.2.1 (by decide), h.2.2.2.2.2 (by decide)⟩

/-- The retry loop performs at most `maxRetries - k` attempts from
attempt `k` on. -/
theorem getListingsGo_count {P E : Type} (f : Nat → Except E P) (n : Nat) :
    ∀ (d k : Nat) (last : Option E), n - k ≤ d →
      countAttempts (getListingsGo f n k last).2 ≤ n - k := by
  intro d
  induction d with
  | zero =>
    intro k last hle
    rw [getListingsGo, if_neg (by omega)]
    simp [countAttempts]
  | succ d ih =>
    intro k last hle
    by_cases hk : k < n
    · rw [getListingsGo, if_pos hk]
      cases hf : f k with
      | ok p =>
        simp [countAttempts]
        omega
      | error e =>
        have hrec := ih (k + 1) (some e) (by omega)
        simp only [countAttempts] at hrec ⊢
        by_cases hk1 : k < n - 1
        · rw [if_pos hk1]
          simp [List.countP_cons]
          omega
        · rw [if_neg hk1]
          simp [List.countP_cons]
          omega
    · rw [getListingsGo, if_neg hk]
      simp [countAttempts]

/-- A run starting at the index of the first success returns immediately
with a single attempt in the trace. -/
theorem getListingsGo_at_success {P E : Type} (f : Nat → Except E P) (n m : Nat)
    (p : P) (hm : m < n) (hfm : f m = .ok p) (last : Option E) :
    getListingsGo f n m last = (.ok p, [.attempt m]) := by
  rw [getListingsGo, if_pos hm, hfm]

/-- A run whose first success is at attempt `m` attempts 0..m in order,
sleeping `(j + 1) * 2` seconds after each failed attempt `j`, and returns
the success. -/
theorem getListingsGo_success {P E : Type} (f : Nat → Except E P) (n m : Nat)
    (p : P) (hm : m < n) (hfm : f m = .ok p) :
    ∀ (d k : Nat) (last : Option E), k ≤ m → m - k ≤ d →
      (∀ j, k ≤ j → j < m → ∃ e, f j = .error e) →
      getListingsGo f n k last =
        (.ok p, (List.range' k (m - k)).flatMap
            (fun j => [.attempt j, .sleep ((j + 1) * 2)]) ++ [.attempt m]) := by
  intro d
  induction d with
  | zero =>
    intro k last hkm hd hfail
    have hkm' : k = m := by omega
    subst hkm'
    rw [getListingsGo_at_success f n k p hm hfm last, show k - k = 0 by omega]
    simp
  | succ d ih =>
    intro k last hkm hd hfail
    rcases Nat.eq_or_lt_of_le hkm with heq | hlt
    · subst heq
      rw [getListingsGo_at_success f n k p hm hfm last, show k - k = 0 by omega]
      simp
    · rcases hfail k (le_refl k) hlt with ⟨e, hfe⟩
      rw [getListingsGo, if_pos (by omega), hfe]
      dsimp only
      rw [if_pos (by omega)]
      rw [ih (k + 1) (some e) (by omega) (by omega)
        (fun j hj1 hj2 => hfail j (by omega) hj2)]
      rw [show m - k = (m - (k + 1)) + 1 by omega, List.range'_succ]
      simp

/-- A run starting at the last attempt index with that attempt failing
raises the aggregate error carrying that cause. -/
theorem getListingsGo_lastfail {P E : Type} (f : Nat → Except E P) (n k : Nat)
    (e : E) (hk1 : k = n - 1) (hk2 : k < n) (hfe : f k = .error e) (last : Option E) :
    getListingsGo f n k last = (.error ⟨n, some e⟩, [.attempt k]) := by
  rw [getListingsGo, if_pos hk2, hfe]
  dsimp only
  rw [if_neg (by omega)]
  rw [getListingsGo, if_neg (by omega)]

/-- A run whose attempts from `k` on all fail attempts `k..n-1` with the
backoff sleeps, and raises the aggregate error carrying the last cause. -/
theorem getListingsGo_allfail {P E : Type} (f : Nat → Except E P) (n : Nat)
    (hfail : ∀ j, j < n → ∃ e, f j = .error e) :
    ∀ (d k : Nat) (last : Option E), k < n → n - k ≤ d + 1 →
      ∃ e, f (n - 1) = .error e ∧
        getListingsGo f n k last =
          (.error ⟨n, some e⟩,
            (List.range' k (n - 1 - k)).flatMap
              (fun j => [.attempt j, .sleep ((j + 1) * 2)]) ++ [.attempt (n - 1)]) := by
  intro d
  induction d with
  | zero =>
    intro k last hk hd
    rcases hfail k hk with ⟨e, hfe⟩
    have hk1 : k = n - 1 := by omega
    refine ⟨e, by rw [← hk1]; exact hfe, ?_⟩
    rw [getListingsGo_lastfail f n k e hk1 hk hfe last,
      show n - 1 - k = 0 by omega, ← hk1]
    simp
  | succ d ih =>
    intro k last hk hd
    by_cases hklast : k < n - 1
    · rcases hfail k hk with ⟨e, hfe⟩
      rcases ih (k + 1) (some e) (by omega) (by omega) with ⟨e', he', hgo⟩
      refine ⟨e', he', ?_⟩
      rw [getListingsGo, if_pos hk, hfe]
      dsimp only
      rw [if_pos hklast, hgo]
      rw [show n - 1 - k = (n - 1 - (k + 1)) + 1 by omega, List.range'_succ]
      simp
    · rcases hfail k hk with ⟨e, hfe⟩
      have hk1 : k = n - 1 := by omega
      refine ⟨e, by rw [← hk1]; exact hfe, ?_⟩
      rw [getListingsGo_lastfail f n k e hk1 hk hfe last,
        show n - 1 - k = 0 by omega, ← hk1]
      simp

/-- C7: the Fetcher makes at most `maxRetries` attempts; when the first
success is at attempt `k` it returns that page with attempts 0..k and a
sleep of `(j + 1) * 2` seconds after each failed attempt `j` (no attempt
after the success); and when all `maxRetries` attempts fail it raises one
aggregate error carrying the last observed cause. -/
theorem C7_fetch_retry {P E : Type} (f : Nat → Except E P) (n : Nat) :
    countAttempts (get_listings f n).2 ≤ n ∧
    (∀ k p, k < n → f k = .ok p → (∀ j, j < k → ∃ e, f j = .error e) →
      get_listings f n = (.ok p, successTrace k)) ∧
    ((∀ j, j < n → ∃ e, f j = .error e) → 0 < n →
      ∃ e, f (n - 1) = .error e ∧
        get_listings f n = (.error ⟨n, some e⟩, failTrace n)) := by
  refine ⟨?_, ?_, ?_⟩
  · have h := getListingsGo_count f n n 0 none (by omega)
    simpa [get_listings] using h
  · intro k p hk hfk hfail
    have h := getListingsGo_success f n k p hk hfk n 0 none (by omega) (by omega)
      (fun j hj1 hj2 => hfail j hj2)
    simpa [get_listings, successTrace, List.range_eq_range'] using h
  · intro hfail hn
    rcases getListingsGo_allfail f n hfail n 0 none (by omega) (by omega) with
      ⟨e, he, hgo⟩
    exact ⟨e, he, by simpa [get_listings, failTrace, List.range_eq_range'] using hgo⟩

/-- C7 witness: with `max_retries = 3`, an oracle failing once then
succeeding returns after attempt 1 with a 2-second backoff and no third
attempt; an always-failing oracle exhausts all three attempts with backoffs
2 and 4 and surfaces the last cause. -/
theorem C7_fetch_retry_witness :
    get_listings fetchOkSecond 3 = (.ok 7, [.attempt 0, .sleep 2, .attempt 1]) ∧
    get_listings fetchAllFail 3 =
      (.error ⟨3, some 12⟩,
        [.attempt 0, .sleep 2, .attempt 1, .sleep 4, .attempt 2]) := by
  constructor
  · have h := (C7_fetch_retry fetchOkSecond 3).2.1 1 7 (by omega) rfl
      (fun j hj => ⟨j, by
        have hj0 : j = 0 := by omega
        subst hj0
        rfl⟩)
    exact h
  · rcases (C7_fetch_retry fetchAllFail 3).2.2 (fun j hj => ⟨j + 10, rfl⟩)
      (by omega) with ⟨e, he, hgo⟩
    injection he with he'
    subst he'
    exact hgo

/-- C8 counterexample: on a page whose matched card yields a profile URL
but no parseable rating, review count or difficulty, the resolver returns
"no rating" even though one extractable field (the URL) was found, so the
claim's "returns None only when nothing at all could be extracted" fails. -/
theorem C8_counterexample :
    get_professor_ratings ("Clare Nguyen".toList) pageUrlOnly = none ∧
    professorUrlOf cardUrlOnly =
      some ("https://www.ratemyprofessors.com/professor/123".toList) := by
  refine ⟨by decide, by decide⟩

/-- C8 (amended): with a 200 page and a strictly matching card, the resolver
returns None exactly when none of rating, review count and difficulty was
extracted (from the card or the profile fallback), even if a profile URL
was found; otherwise it returns exactly the found subset of those three,
together with the profile URL if found. -/
theorem C8_rating_resolver_amended {V : Type} (profName : List Char)
    (page : RPage V) (card : RCard V) (hs : page.status200 = true)
    (hm : findMatchingCard profName page.teacherCards = some card) :
    (get_professor_ratings profName page = none ↔
      (card.rating <|> page.profileRating) = none ∧
      (card.numRatings <|> page.profileNumRatings) = none ∧
      ((card.difficultyLabeled <|> card.difficultyAlt) <|>
        (page.profileDifficultyLabeled <|> page.profileDifficultyAlt)) = none) ∧
    (∀ r, get_professor_ratings profName page = some r →
      r.rating = (card.rating <|> page.profileRating) ∧
      r.num_ratings = (card.numRatings <|> page.profileNumRatings) ∧
      r.difficulty = ((card.difficultyLabeled <|> card.difficultyAlt) <|>
        (page.profileDifficultyLabeled <|> page.profileDifficultyAlt)) ∧
      r.url = professorUrlOf card) := by
  have hne : page.teacherCards.isEmpty = false := by
    cases hcards : page.teacherCards with
    | nil =>
      rw [hcards] at hm
      exact Option.noConfusion hm
    | cons a t => rfl
  rw [get_professor_ratings]
  rw [if_neg (by rw [hs]; exact fun h => Bool.noConfusion h)]
  rw [if_neg (by rw [hne]; exact fun h => Bool.noConfusion h)]
  rw [hm]
  cases hr : (card.rating <|> page.profileRating) <;>
    cases hn : (card.numRatings <|> page.profileNumRatings) <;>
      cases hd : ((card.difficultyLabeled <|> card.difficultyAlt) <|>
        (page.profileDifficultyLabeled <|> page.profileDifficultyAlt)) <;>
    refine ⟨?_, ?_⟩ <;>
    simp_all

/-- C8 witness: on a page whose matched card has a rating and a review
count, with a profile-page difficulty fallback, the resolver returns
exactly that subset plus the profile URL. -/
theorem C8_rating_resolver_witness :
    ¬ (get_professor_ratings ("Clare Nguyen".toList) pageRated = none) ∧
    get_professor_ratings ("Clare Nguyen".toList) pageRated =
      some ⟨some 4, some 12, some 3,
        some ("https://www.ratemyprofessors.com/professor/123".toList)⟩ := by
  have h := C8_rating_resolver_amended ("Clare Nguyen".toList) pageRated cardRated
    rfl (by decide)
  refine ⟨fun hnone => ?_, by decide⟩
  rcases h.1.mp hnone with ⟨h1, -, -⟩
  exact Option.noConfusion h1

end DeAnza
